import Mathlib

/-!
Verification of the news-harvester repository (akm, finam, interfax,
vedomosti business / economics site modules) against its natural-language
specification.

The Python modules parse HTML snapshots with BeautifulSoup and drive a
browser session with Selenium.  The embedding models:

- the parsed DOM as an inductive tree (`Node`); the BeautifulSoup document
  object is the synthetic root element with tag "[document]", matching
  BeautifulSoup where the parent of a top-level tag is the soup object;
- each site's extraction function as a Lean function over `Node`,
  translated statement by statement from the Python source;
- the Selenium-driven harvest loops as step functions over an explicit
  state, where everything the browser supplies in a round (whether the
  locator cascade found and clicked the trigger, the rendered page
  snapshot, counts of rendered elements, whether the round's driver reads
  succeeded) is an environment input; the loop logic itself (counters,
  merging, stop conditions) is translated from the source;
- Python floats in threshold tests are replaced by exact integer
  arithmetic: for the list sizes reachable here, n < m * 0.3 iff
  10 * n < 3 * m, n < m * 0.5 iff 2 * n < m, and n > m * 1.2 iff
  5 * n > 6 * m, because the rounding error of the float product is far
  below the distance to the nearest integer (checked for the literals
  0.3, 0.5, 1.2);
- string primitives of Python (strip, lower, slicing, split, substring
  tests) are implemented over character lists so that every definition
  evaluates inside the kernel.
-/

namespace NewsHarvest

/-! ## Python string primitives, modelled over character lists -/

/-- Python str.strip with no arguments: remove leading and trailing
whitespace.  The sites only produce ASCII whitespace around the fields
read here. -/
def pyTrim (s : String) : String :=
  String.mk (((s.data.dropWhile Char.isWhitespace).reverse.dropWhile Char.isWhitespace).reverse)

/-- Python str.lower restricted to the alphabets that occur in this
repository: ASCII letters and the Russian Cyrillic block (А..Я and Ё). -/
def pyCharToLower (c : Char) : Char :=
  if 65 ≤ c.toNat ∧ c.toNat ≤ 90 then Char.ofNat (c.toNat + 32)
  else if c = 'Ё' then 'ё'
  else if 1040 ≤ c.toNat ∧ c.toNat ≤ 1071 then Char.ofNat (c.toNat + 32)
  else c

def pyLower (s : String) : String := String.mk (s.data.map pyCharToLower)

/-- Python slicing s[:n] (by code points). -/
def pyTake (s : String) (n : Nat) : String := String.mk (s.data.take n)

/-- Python len(s) (code points). -/
def pyLen (s : String) : Nat := s.data.length

/-- Whether `pat` is a leading piece of `s`. -/
def listStartsWith : List Char → List Char → Bool
  | [], _ => true
  | _ :: _, [] => false
  | p :: ps, c :: cs => p = c && listStartsWith ps cs

/-- Whether `pat` occurs contiguously inside `s` (Python `pat in s`). -/
def listHasSub (pat : List Char) : List Char → Bool
  | [] => listStartsWith pat []
  | c :: cs => listStartsWith pat (c :: cs) || listHasSub pat cs

/-- Python `pat in s` on strings. -/
def strHasSub (s pat : String) : Bool := listHasSub pat.data s.data

/-- Python s.startswith(pat). -/
def strStartsWith (s pat : String) : Bool := listStartsWith pat.data s.data

/-- Split a character list on a separator character, keeping empty pieces,
like Python str.split with an explicit separator. -/
def splitChars (sep : Char) : List Char → List (List Char)
  | [] => [[]]
  | c :: cs =>
    if c = sep then [] :: splitChars sep cs
    else
      match splitChars sep cs with
      | [] => [[c]]
      | p :: ps => (c :: p) :: ps

/-- Python s.split(sep) for a one-character separator. -/
def pySplitOn (sep : Char) (s : String) : List String :=
  (splitChars sep s.data).map String.mk

/-! ## DOM model

BeautifulSoup navigation is modelled over an inductive markup tree.  The
whole parsed document is the element with tag "[document]" (BeautifulSoup's
own name for the soup object); its children are the top-level tags, so
every real element has a parent, exactly as in bs4 where the parent chain
ends at the soup object and then at None. -/

inductive Node where
  | elem (tag : String) (attrs : List (String × String)) (children : List Node)
  | text (s : String)
deriving Repr

def Node.tagOf : Node → String
  | .elem t _ _ => t
  | .text _ => ""

def Node.attrsOf : Node → List (String × String)
  | .elem _ a _ => a
  | .text _ => []

def Node.isElem : Node → Bool
  | .elem _ _ _ => true
  | .text _ => false

/-- bs4 tag.get(name): the attribute value, if the attribute is present. -/
def Node.getAttr (n : Node) (name : String) : Option String :=
  (n.attrsOf.find? (fun p => p.1 == name)).map (fun p => p.2)

/-- The element's class tokens: bs4 treats the class attribute as a
whitespace-separated multi-valued attribute. -/
def classTokens (n : Node) : List String :=
  match n.getAttr "class" with
  | none => []
  | some c => ((splitChars ' ' c.data).map String.mk).filter (fun s => s ≠ "")

mutual

/-- All element descendants of a node in document (preorder) order, each
paired with its ancestor chain, nearest ancestor first.  This is the
single traversal from which find_all / find / .parent / find_parent are
read off, mirroring bs4's preorder document order.  The node itself is not
listed, matching tag.find_all which searches descendants only. -/
def Node.elemsAnc (anc : List Node) : Node → List (Node × List Node)
  | .text _ => []
  | .elem t a cs => Node.elemsAncList ((Node.elem t a cs) :: anc) cs

def Node.elemsAncList (anc : List Node) : List Node → List (Node × List Node)
  | [] => []
  | n :: ns =>
      (match n with
       | .text _ => []
       | .elem t a cs => [((Node.elem t a cs), anc)])
      ++ Node.elemsAnc anc n ++ Node.elemsAncList anc ns

end

/-- bs4 tag.find_all(pred): matching element descendants in document order. -/
def Node.findAll (p : Node → Bool) (n : Node) : List Node :=
  ((Node.elemsAnc [] n).map (fun x => x.1)).filter p

/-- bs4 tag.find(pred): the first matching element descendant. -/
def Node.findFirst (p : Node → Bool) (n : Node) : Option Node :=
  ((Node.elemsAnc [] n).map (fun x => x.1)).find? p

mutual

/-- The strings of all text nodes below a node, in document order. -/
def Node.textsIn : Node → List String
  | .text s => [s]
  | .elem _ _ cs => Node.textsInList cs

def Node.textsInList : List Node → List String
  | [] => []
  | n :: ns => Node.textsIn n ++ Node.textsInList ns

end

/-- bs4 get_text(sep, strip=True): each descendant string stripped, empty
pieces dropped, the rest joined with the separator.  Every get_text call in
this repository passes strip=True. -/
def getTextWith (sep : String) (n : Node) : String :=
  String.mk (joinWithSep sep.data (((Node.textsIn n).map (fun s => (pyTrim s).data)).filter (fun l => l ≠ [])))
where
  joinWithSep (sep : List Char) : List (List Char) → List Char
    | [] => []
    | [l] => l
    | l :: ls => l ++ sep ++ joinWithSep sep ls

/-- html.unescape from the Python standard library.  None of the
properties verified here depend on entity decoding (every title check in
the sources runs after unescaping), and no test input contains entities,
so it is modelled as the identity. -/
def htmlUnescape (s : String) : String := s

/-! ## News items and the shared accumulator discipline

Every site module builds records with a "date" and a "title" field and
deduplicates on the pair (date, title).  The merge loop below appears
verbatim (modulo variable names) in akm.main, finam.main,
interfax.scroll_and_click_load_more and both vedomosti
scroll_and_click_load_more functions:

    for item in chunk:
        key = (item date, item title)
        if key not in seen:
            seen.add(key)
            collected.append(item)
            added += 1
-/

structure Item where
  date : String
  title : String
deriving Repr, DecidableEq

def itemKey (it : Item) : String × String := (it.date, it.title)

/-- The running accumulator: the insertion-ordered collected list plus the
set of seen keys (the Python set is modelled as the list of keys in
insertion order; only membership is ever used). -/
structure Accum where
  collected : List Item
  seen : List (String × String)
deriving Repr, DecidableEq

/-- One round's merge: admit each item of the chunk, left to right, whose
key has not been seen. -/
def mergeRound (acc : Accum) : List Item → Accum
  | [] => acc
  | it :: rest =>
    if itemKey it ∈ acc.seen then mergeRound acc rest
    else mergeRound ⟨acc.collected ++ [it], itemKey it :: acc.seen⟩ rest

/-- The `added` counter of a merge round: how many items were admitted. -/
def mergeAdded (acc : Accum) (l : List Item) : Nat :=
  (mergeRound acc l).collected.length - acc.collected.length

/-- First-kept-occurrence deduplication by item key, starting from a set
of already-seen keys.  Stated independently of `mergeRound` and used to
describe what the per-extractor seen_keys filter computes. -/
def dedupByKeyFrom (seen : List (String × String)) : List Item → List Item
  | [] => []
  | it :: rest =>
    if itemKey it ∈ seen then dedupByKeyFrom seen rest
    else it :: dedupByKeyFrom (itemKey it :: seen) rest

/-! ## Date normalization -/

/-- Test for the anchored pattern of four digits, dash, two digits, dash,
two digits at the start of the string (re.match with that pattern, as used
in both vedomosti extractors). -/
def isIsoDateStart (s : String) : Bool :=
  match s.data with
  | y1 :: y2 :: y3 :: y4 :: d1 :: m1 :: m2 :: d2 :: a1 :: a2 :: _ =>
    y1.isDigit && y2.isDigit && y3.isDigit && y4.isDigit && d1 = '-' &&
    m1.isDigit && m2.isDigit && d2 = '-' && a1.isDigit && a2.isDigit
  | _ => false

/-- Test for the full-string pattern two digits, dot, two digits, dot,
four digits (the DATE_DOT_PATTERN of the vedomosti modules). -/
def isDotDate (s : String) : Bool :=
  match s.data with
  | [d1, d2, p1, m1, m2, p2, y1, y2, y3, y4] =>
    d1.isDigit && d2.isDigit && p1 = '.' && m1.isDigit && m2.isDigit &&
    p2 = '.' && y1.isDigit && y2.isDigit && y3.isDigit && y4.isDigit
  | _ => false

/-- vedomosti dot_date_to_iso: rewrite DD.MM.YYYY to YYYY-MM-DD; any
input whose stripped form does not match is returned unchanged. -/
def dot_date_to_iso (s : String) : String :=
  let t := pyTrim s
  if isDotDate t then
    String.mk ((t.data.drop 6) ++ ('-' :: (t.data.drop 3).take 2) ++ ('-' :: t.data.take 2))
  else s

/-- The date-normalization step shared by both vedomosti extractors: an
ISO-prefixed value is truncated to its first ten characters, a dotted date
is rewritten via dot_date_to_iso, anything else yields no date (the
extractor then skips or keeps climbing). -/
def vedDateFromText (dateText : String) : Option String :=
  if isIsoDateStart dateText then some (pyTake dateText 10)
  else if isDotDate dateText then some (dot_date_to_iso dateText)
  else none

/-- interfax's date normalization (line `datetime_val.replace("T", " ")[:16]`):
replace every "T" by a space and truncate to sixteen characters, giving
minute precision for ISO date-times. -/
def interfaxDateNorm (s : String) : String :=
  pyTake (String.mk (s.data.map (fun c => if c = 'T' then ' ' else c))) 16

/-! ## akm.py: get_akm_news

The block selector is find_all("div", class_=re.compile of the literal
"b-section-item" between word boundaries).  bs4 applies the regex to each
class token; the word-boundary search over a single token is implemented
below. -/

def reWordChar (c : Char) : Bool := c.isAlphanum || c = '_'

/-- If the literal matches at the head of s, return the remainder. -/
def matchLiteral : List Char → List Char → Option (List Char)
  | [], s => some s
  | _ :: _, [] => none
  | p :: ps, c :: cs => if c = p then matchLiteral ps cs else none

/-- Attempt of the regex word-boundary literal word-boundary at one
position, given the character preceding the position (none at the start).
The literal here starts and ends with word characters, so the boundary
conditions are: the previous character, if any, is not a word character,
and the character after the match, if any, is not a word character. -/
def boundaryMatchAt (lit : List Char) (prevc : Option Char) (s : List Char) : Bool :=
  match matchLiteral lit s with
  | none => false
  | some rest =>
    (match prevc with
     | none => true
     | some c => !reWordChar c) &&
    (match rest with
     | [] => true
     | c :: _ => !reWordChar c)

/-- re.search of a word-boundary-delimited literal over a string: try each
position left to right. -/
def boundarySearchFrom (lit : List Char) (prevc : Option Char) : List Char → Bool
  | [] => boundaryMatchAt lit prevc []
  | c :: cs => boundaryMatchAt lit prevc (c :: cs) || boundarySearchFrom lit (some c) cs

/-- Whether a node matches find_all("div", class_= word-boundary regex of
"b-section-item"): some class token contains the literal delimited by word
boundaries. -/
def akmBlockMatch (n : Node) : Bool :=
  n.tagOf == "div" &&
  (classTokens n).any (fun tok => boundarySearchFrom "b-section-item".data none tok.data)

/-- bs4 string-valued class_ filter: some class token equals the string. -/
def hasClassTok (tok : String) (n : Node) : Bool :=
  (classTokens n).contains tok

/-- Processing of one candidate block in get_akm_news, with each
`continue` of the source loop rendered as `none`. -/
def akmProcessItem (item : Node) : Option Item :=
  match Node.findFirst (fun n => n.tagOf == "h3" && hasClassTok "b-section-item__title" n) item with
  | none => none
  | some titleTag =>
    match Node.findFirst (fun n => n.tagOf == "a") titleTag with
    | none => none
    | some link =>
      let title := getTextWith "" link
      if title = "" then none
      else
        let dateText :=
          match Node.findFirst (fun n => n.tagOf == "div" && hasClassTok "b-section-item__meta" n) item with
          | none => ""
          | some meta =>
            match (Node.findAll (fun n => n.tagOf == "span") meta).getLast? with
            | none => ""
            | some sp => getTextWith "" sp
        if title ≠ "" ∧ dateText ≠ "" then some ⟨dateText, title⟩ else none

/-- akm.get_akm_news: extract date/title pairs from every news block. -/
def get_akm_news (doc : Node) : List Item :=
  (Node.findAll akmBlockMatch doc).filterMap akmProcessItem

/-! ## finam.py -/

/-- finam.parse_datetime_from_url's token: a dash, eight digits, a dash,
four digits, followed by a slash or the end of the string.  This is the
match attempt at one position. -/
def finamTokenAt : List Char → Option (List Char × List Char)
  | '-' :: rest =>
    let d8 := rest.take 8
    if d8.length = 8 && d8.all Char.isDigit then
      match rest.drop 8 with
      | '-' :: rest2 =>
        let t4 := rest2.take 4
        if t4.length = 4 && t4.all Char.isDigit then
          match rest2.drop 4 with
          | [] => some (d8, t4)
          | '/' :: _ => some (d8, t4)
          | _ => none
        else none
      | _ => none
    else none
  | _ => none

/-- re.search for the token: leftmost matching position. -/
def finamScanToken : List Char → Option (List Char × List Char)
  | [] => none
  | c :: cs =>
    match finamTokenAt (c :: cs) with
    | some r => some r
    | none => finamScanToken cs

/-- finam.parse_datetime_from_url: date-time embedded in the URL as
YYYY-MM-DD HH:MM, or the empty string when the token is absent. -/
def parse_datetime_from_url (url : String) : String :=
  match finamScanToken url.data with
  | none => ""
  | some (d8, t4) =>
    String.mk ((d8.take 4) ++ ('-' :: (d8.drop 4).take 2) ++ ('-' :: d8.drop 6) ++
      (' ' :: t4.take 2) ++ (':' :: t4.drop 2))

/-- finam's article-link pattern (re.search, IGNORECASE): the href
contains "/publications/item/" or "bonds.finam.ru/news/item/" or
"bonds.finam.ru/comments/item/". -/
def finamHrefMatch (href : String) : Bool :=
  let h := pyLower href
  strHasSub h "/publications/item/" || strHasSub h "bonds.finam.ru/news/item/" ||
    strHasSub h "bonds.finam.ru/comments/item/"

/-- Modelled from the behavior of urllib.parse.urljoin with base
"https://www.finam.ru/" for the href shapes this site produces: an href
that already has a scheme is returned unchanged, a protocol-relative URL
receives the base scheme, a root-relative path is attached to the site
root, and any other relative path is resolved against the base directory
(the base path is "/"). -/
def finamUrljoin (href : String) : String :=
  if strStartsWith (pyLower href) "http://" || strStartsWith (pyLower href) "https://" then href
  else if strStartsWith href "//" then "https:" ++ href
  else if strStartsWith href "/" then "https://www.finam.ru" ++ href
  else "https://www.finam.ru/" ++ href

/-- Python `href.split("/")[-2] if "/" in href else href`, the last-resort
title source in finam's extractor. -/
def lastPathSeg (s : String) : String :=
  if s.data.contains '/' then
    let parts := pySplitOn '/' s
    (parts.drop (parts.length - 2)).headD ""
  else s

/-- The navigation-text filter: short texts that consist of or contain
boilerplate are dropped (texts of twenty or more characters are kept even
if they contain the keywords). -/
def finamNavFiltered (text : String) : Bool :=
  let lower := pyLower text
  pyLen text < 20 &&
    (strHasSub lower "читать далее" || strHasSub lower "подробнее" ||
      text.data.contains '→' || text.data.contains '>')

/-- The title-candidate text for one anchor occurrence: the anchor text,
else a sufficiently long parent text, else the title attribute, else a
path segment of the href. -/
def finamAnchorText (a : Node) (anc : List Node) (href : String) : String :=
  let text := getTextWith " " a
  let text :=
    if text = "" ∨ pyLen text < 5 then
      match anc.head? with
      | some parent =>
        let pt := getTextWith " " parent
        if pyLen pt > pyLen text ∧ pyLen pt > 10 then pt else text
      | none => text
    else text
  let text :=
    if text = "" ∨ pyLen text < 5 then
      let ta := (a.getAttr "title").getD ""
      if ta ≠ "" ∧ pyLen ta > 5 then ta else text
    else text
  if text = "" ∨ pyLen text < 5 then lastPathSeg href else text

/-- The update rule for the kept title of a URL in finam's extractor
(lines with the 1.2 factor): a new text replaces the kept title only when
it is strictly longer and either more than twenty percent longer or the
kept title is shorter than ten characters. -/
def finamTitleUpdate (kept text : String) : String :=
  if pyLen text > pyLen kept then
    if 5 * pyLen text > 6 * pyLen kept ∨ pyLen kept < 10 then text else kept
  else kept

structure FinamInfo where
  date : String
  title : String
deriving Repr, DecidableEq

/-- One anchor occurrence reduced to its (canonical URL, candidate text)
pair; `none` for anchors the loop skips (non-article href or filtered
navigation text). -/
def finamCandidate (x : Node × List Node) : Option (String × String) :=
  match x.1.getAttr "href" with
  | none => none
  | some href =>
    if finamHrefMatch href then
      let text := finamAnchorText x.1 x.2 href
      if finamNavFiltered text then none
      else some (finamUrljoin href, text)
    else none

/-- The articles dict keyed by canonical URL, in insertion order.  A fresh
URL is appended with the date parsed from the URL and an empty kept title,
then the unconditional title-update step runs (exactly as in the source,
where the update code runs for fresh and existing entries alike). -/
def finamUpsert : List (String × FinamInfo) → String → String → List (String × FinamInfo)
  | [], url, text => [(url, ⟨parse_datetime_from_url url, finamTitleUpdate "" text⟩)]
  | p :: rest, url, text =>
    if p.1 = url then (p.1, ⟨p.2.date, finamTitleUpdate p.2.title text⟩) :: rest
    else p :: finamUpsert rest url text

/-- All anchors with an href attribute, in document order, with ancestors. -/
def anchorsWithAnc (doc : Node) : List (Node × List Node) :=
  (Node.elemsAnc [] doc).filter (fun x => x.1.tagOf == "a" && (x.1.getAttr "href").isSome)

def finamCandList (doc : Node) : List (String × String) :=
  (anchorsWithAnc doc).filterMap finamCandidate

/-- The articles dict built by finam.extract_news_from_page's anchor loop. -/
def finamArticles (doc : Node) : List (String × FinamInfo) :=
  (finamCandList doc).foldl (fun st c => finamUpsert st c.1 c.2) []

/-- finam.extract_news_from_page: one output row per canonical URL, in
dict insertion order; a URL whose kept title stayed empty falls back to a
path segment of the URL. -/
def Finam.extract_news_from_page (doc : Node) : List Item :=
  (finamArticles doc).map (fun p =>
    if p.2.title ≠ "" then ⟨p.2.date, p.2.title⟩
    else ⟨p.2.date, lastPathSeg p.1⟩)

/-! ## interfax.py -/

def interfaxSection (s : String) : Bool :=
  s = "business" || s = "world" || s = "russia" || s = "moscow" ||
    s = "digital" || s = "news" || s = "culture"

/-- The path part of interfax's NEWS_HREF_PATTERN: a slash, one of the
section names, a slash, at least one digit. -/
def interfaxPathMatch : List Char → Bool
  | '/' :: rest =>
    interfaxSection (pyLower (String.mk (rest.takeWhile (fun c => c ≠ '/')))) &&
    (match rest.dropWhile (fun c => c ≠ '/') with
     | '/' :: d :: _ => d.isDigit
     | _ => false)
  | _ => false

/-- interfax's NEWS_HREF_PATTERN (anchored, IGNORECASE): an optional
scheme-and-host part, then the section path. -/
def interfaxHrefMatch (href : String) : Bool :=
  let low := pyLower href
  interfaxPathMatch href.data ||
  (if strStartsWith low "http://" then
     let cs := href.data.drop 7
     (cs.takeWhile (fun c => c ≠ '/')) ≠ [] && interfaxPathMatch (cs.dropWhile (fun c => c ≠ '/'))
   else if strStartsWith low "https://" then
     let cs := href.data.drop 8
     (cs.takeWhile (fun c => c ≠ '/')) ≠ [] && interfaxPathMatch (cs.dropWhile (fun c => c ≠ '/'))
   else false)

/-- The h3 fallback of interfax's title expression: the text of the first
h3 inside the anchor, or the empty string when there is none (in the
source the and/or chain then lands on the final or ""). -/
def interfaxH3Title (a : Node) : String :=
  match Node.findFirst (fun n => n.tagOf == "h3") a with
  | none => ""
  | some h3 => getTextWith " " h3

/-- Processing of one time element inside a timeline block, with each
`continue` rendered as `none`.  The datetime attribute is known present
(the find_all filter requires it). -/
def interfaxProcessTime (timeEl : Node) (anc : List Node) : Option Item :=
  match anc.head? with
  | none => none
  | some parent =>
    match Node.findFirst (fun n => n.tagOf == "a" &&
        (match n.getAttr "href" with | some h => interfaxHrefMatch h | none => false)) parent with
    | none => none
    | some a =>
      let dv := pyTrim ((timeEl.getAttr "datetime").getD "")
      if dv = "" then none
      else
        let title0 :=
          match a.getAttr "title" with
          | some t => if t ≠ "" then t else interfaxH3Title a
          | none => interfaxH3Title a
        let title := pyTrim (htmlUnescape title0)
        if title = "" then none
        else some ⟨interfaxDateNorm dv, title⟩

/-- interfax.extract_news_from_page: walk every div whose class token is
exactly "timeline", and inside it every time element carrying a datetime,
pairing it with the enclosing block's article link. -/
def Interfax.extract_news_from_page (doc : Node) : List Item :=
  ((Node.findAll (fun n => n.tagOf == "div" && hasClassTok "timeline" n) doc).map
    (fun timeline =>
      (Node.elemsAnc [] timeline).filterMap (fun x =>
        if x.1.tagOf == "time" && (x.1.getAttr "datetime").isSome then
          interfaxProcessTime x.1 x.2
        else none))).flatten

/-! ## vedomosti_business.py and vedomosti_economics.py extractors

The two files differ only in the accepted link shapes; everything else in
extract_news_from_page is line-for-line identical, so the common body is
parametrized by the two link predicates. -/

/-- find_parent with the regex card-news-item|card-mobile-news|
article-preview-item: some class token contains one of the literals. -/
def vedCardClassMatch (n : Node) : Bool :=
  (classTokens n).any (fun tok =>
    strHasSub tok "card-news-item" || strHasSub tok "card-mobile-news" ||
      strHasSub tok "article-preview-item")

/-- find_parent with the regex "card": some class token contains "card". -/
def vedCardAnyMatch (n : Node) : Bool :=
  (classTokens n).any (fun tok => strHasSub tok "card")

/-- The title container: a div whose class token contains
card-news-item__title or article-preview-item__title. -/
def vedTitleDivMatch (n : Node) : Bool :=
  n.tagOf == "div" &&
  (classTokens n).any (fun tok =>
    strHasSub tok "card-news-item__title" || strHasSub tok "article-preview-item__title")

def isHrefAnchor (n : Node) : Bool :=
  n.tagOf == "a" && (n.getAttr "href").isSome

/-- The raw date text of a time element: the datetime attribute if
non-empty, else the element text, stripped. -/
def timeDateText (timeEl : Node) : String :=
  pyTrim (match timeEl.getAttr "datetime" with
    | some d => if d ≠ "" then d else getTextWith "" timeEl
    | none => getTextWith "" timeEl)

/-- The first of a list of nodes in which a matching descendant is found,
used for the explicit three-ancestor fallback list of strategy 1. -/
def firstFoundIn (p : Node → Bool) : List Node → Option Node
  | [] => none
  | n :: ns =>
    match Node.findFirst p n with
    | some a => some a
    | none => firstFoundIn p ns

/-- vedomosti's business-section link test (the economics file replaces
the first two literals by "/economics/"). -/
def vedBizIsNewsLink (href : String) : Bool :=
  strHasSub href "/business/" || strHasSub href "/finance/" ||
    strHasSub href "/news/" || strHasSub href "/articles/" ||
    (strStartsWith href "/" && pyLen href > 10 &&
      !(strHasSub href "#" || strHasSub href "javascript:" ||
        strHasSub href "mailto:" || strHasSub href "tel:"))

def vedEcoIsNewsLink (href : String) : Bool :=
  strHasSub href "/economics/" ||
    strHasSub href "/news/" || strHasSub href "/articles/" ||
    (strStartsWith href "/" && pyLen href > 10 &&
      !(strHasSub href "#" || strHasSub href "javascript:" ||
        strHasSub href "mailto:" || strHasSub href "tel:"))

/-- Strategy 1 of the vedomosti extractors applied to one time element
(with its ancestor chain), parametrized by the site's link test; each
`continue` of the source is `none`.  The card is the nearest ancestor of
the parent with a card-like class (find_parent starts above the parent),
defaulting to the parent itself. -/
def vedCand1 (isNewsLink : String → Bool) (x : Node × List Node) : Option Item :=
  let dateText := timeDateText x.1
  if dateText = "" then none
  else
    match vedDateFromText dateText with
    | none => none
    | some dateIso =>
      match x.2.head? with
      | none => none
      | some parent =>
        let card :=
          match (x.2.drop 1).find? vedCardClassMatch with
          | some c => c
          | none =>
            match (x.2.drop 1).find? vedCardAnyMatch with
            | some c => c
            | none => parent
        let aOpt :=
          match (match Node.findFirst vedTitleDivMatch card with
                 | some td => Node.findFirst isHrefAnchor td
                 | none => none) with
          | some a => some a
          | none =>
            match Node.findFirst isHrefAnchor card with
            | some a => some a
            | none => firstFoundIn isHrefAnchor (x.2.take 3)
        match aOpt with
        | none => none
        | some a =>
          let href := (a.getAttr "href").getD ""
          if href = "" then none
          else if !isNewsLink href then none
          else
            let t0 := getTextWith " " a
            let title := pyTrim (htmlUnescape (if t0 ≠ "" then t0 else (a.getAttr "title").getD ""))
            if title = "" ∨ pyLen title < 2 then none
            else some ⟨dateIso, title⟩

/-- The upward walk of strategy 2: climb at most ten ancestors; at each,
look for the first time descendant; a non-empty recognized date stops the
walk, otherwise keep climbing. -/
def vedFindDateUp : Nat → List Node → Option String
  | 0, _ => none
  | _, [] => none
  | Nat.succ k, cur :: rest =>
    match Node.findFirst (fun n => n.tagOf == "time") cur with
    | some timeEl =>
      let dt := timeDateText timeEl
      if dt ≠ "" then
        match vedDateFromText dt with
        | some d => some d
        | none => vedFindDateUp k rest
      else vedFindDateUp k rest
    | none => vedFindDateUp k rest

/-- Strategy 2 of the vedomosti extractors applied to one matching anchor
(with its ancestor chain); identical in both site files. -/
def vedCand2 (x : Node × List Node) : Option Item :=
  let href := (x.1.getAttr "href").getD ""
  if href = "" ∨ strHasSub href "#" ∨ strHasSub href "javascript:" ∨
      strHasSub href "mailto:" ∨ strHasSub href "tel:" then none
  else
    let t0 := getTextWith " " x.1
    let title := pyTrim (htmlUnescape (if t0 ≠ "" then t0 else (x.1.getAttr "title").getD ""))
    if title = "" ∨ pyLen title < 2 then none
    else
      match vedFindDateUp 10 x.2 with
      | none => none
      | some dateIso => some ⟨dateIso, title⟩

/-- The strategy-1 candidate stream: every time element in document order. -/
def vedCandList1 (isNewsLink : String → Bool) (doc : Node) : List Item :=
  ((Node.elemsAnc [] doc).filter (fun x => x.1.tagOf == "time")).filterMap (vedCand1 isNewsLink)

/-- The strategy-2 candidate stream: every anchor whose href matches the
site's strategy-2 regex, in document order. -/
def vedCandList2 (s2href : String → Bool) (doc : Node) : List Item :=
  ((Node.elemsAnc [] doc).filter (fun x => x.1.tagOf == "a" &&
      (match x.1.getAttr "href" with | some h => s2href h | none => false))).filterMap vedCand2

def vedBizS2Href (h : String) : Bool :=
  strHasSub h "/business/" || strHasSub h "/finance/"

def vedEcoS2Href (h : String) : Bool :=
  strHasSub h "/economics/"

/-- vedomosti_business.extract_news_from_page: strategy 1 over all time
elements, then strategy 2 over the business/finance anchors, both feeding
one shared seen_keys set in that order. -/
def VedomostiBusiness.extract_news_from_page (doc : Node) : List Item :=
  (mergeRound ⟨[], []⟩ (vedCandList1 vedBizIsNewsLink doc ++ vedCandList2 vedBizS2Href doc)).collected

/-- vedomosti_economics.extract_news_from_page: the same two passes with
the economics link shapes. -/
def VedomostiEconomics.extract_news_from_page (doc : Node) : List Item :=
  (mergeRound ⟨[], []⟩ (vedCandList1 vedEcoIsNewsLink doc ++ vedCandList2 vedEcoS2Href doc)).collected

/-! ## The harvest loops

Every loop is a Python `for round in range(cap)` with early breaks.  It is
embedded as a step function on an explicit state plus a generic bounded
runner.  Everything the browser session supplies in a round is an
environment input: whether the locator cascade located and clicked the
trigger (the cascade itself only interrogates the live page), the page
snapshot that page_source returned, the driver's element counts, and
whether the round's driver reads succeeded at all (the source wraps them
in try/except and treats a failing round as yielding nothing; the model
treats a round's reads as jointly succeeding or failing, which is the
only distinction the verified properties depend on).  Scrolls and sleeps
have no effect on the loop state and are not modelled. -/

/-- Run a step function for at most `fuel` rounds starting at round index
`i`; returns the final state and the number of rounds executed. -/
def runLoop {S E : Type} (step : S → E → S × Bool) (env : Nat → E) :
    Nat → Nat → S → S × Nat
  | 0, _, st => (st, 0)
  | Nat.succ k, i, st =>
    match step st (env i) with
    | (st', true) => (st', 1)
    | (st', false) =>
      match runLoop step env k (i + 1) st' with
      | (fin, r) => (fin, r + 1)

/-- Shared loop state of the three incremental harvesters: the
accumulator plus the consecutive-miss counter (no_new_count in interfax,
no_click_count in the vedomosti files). -/
structure LoopState where
  acc : Accum
  misses : Nat
deriving Repr, DecidableEq

def initLoopState : LoopState := ⟨⟨[], []⟩, 0⟩

/-- One round's environment for interfax's loop. -/
structure InterfaxEnv where
  clicked : Bool
  parseOk : Bool
  page : Node

/-- The parse-and-merge tail of an interfax round: merge the chunk parsed
from the current page, reset the miss counter when something was added,
then stop if the target is reached (`if target_count and len(collected)
>= target_count`). -/
def interfaxParse (targetCount : Nat) (st : LoopState) (e : InterfaxEnv) : LoopState × Bool :=
  let st :=
    if e.parseOk then
      let chunk := Interfax.extract_news_from_page e.page
      ⟨mergeRound st.acc chunk,
       if mergeAdded st.acc chunk > 0 then 0 else st.misses⟩
    else st
  if targetCount ≠ 0 ∧ st.acc.collected.length ≥ targetCount then (st, true) else (st, false)

/-- One round of interfax.scroll_and_click_load_more: a round that did not
click increments no_new_count and stops the loop at three; the counter is
not touched by a successful click, only by an admitting merge. -/
def interfaxStep (targetCount : Nat) (st : LoopState) (e : InterfaxEnv) : LoopState × Bool :=
  if e.clicked then interfaxParse targetCount st e
  else
    let st := ⟨st.acc, st.misses + 1⟩
    if st.misses ≥ 3 then (st, true)
    else interfaxParse targetCount st e

/-- interfax.scroll_and_click_load_more (the source calls it with
max_clicks 500 and target 10000). -/
def Interfax.scroll_and_click_load_more (env : Nat → InterfaxEnv)
    (maxClicks targetCount : Nat) : LoopState × Nat :=
  runLoop (interfaxStep targetCount) env maxClicks 0 initLoopState

/-- One round's environment for the vedomosti_economics loop. -/
structure VedEcoEnv where
  clicked : Bool
  parseOk : Bool
  timeCount : Nat
  page : Node

/-- The parse-and-merge tail of a vedomosti_economics round, including the
stall heuristic: once more than fifty items are collected, a round whose
rendered time-element count and parsed chunk are both below thirty percent
of the collection stops the loop. -/
def vedEcoParse (targetCount : Nat) (st : LoopState) (e : VedEcoEnv) : LoopState × Bool :=
  if e.parseOk then
    let chunk := VedomostiEconomics.extract_news_from_page e.page
    let acc := mergeRound st.acc chunk
    if 50 < acc.collected.length ∧ 10 * e.timeCount < 3 * acc.collected.length ∧
        10 * chunk.length < 3 * acc.collected.length then
      (⟨acc, st.misses⟩, true)
    else if targetCount ≠ 0 ∧ acc.collected.length ≥ targetCount then (⟨acc, st.misses⟩, true)
    else (⟨acc, st.misses⟩, false)
  else
    if targetCount ≠ 0 ∧ st.acc.collected.length ≥ targetCount then (st, true) else (st, false)

/-- One round of vedomosti_economics.scroll_and_click_load_more: a click
resets no_click_count; a round without a click increments it and stops the
loop at three, before any parsing. -/
def vedEcoStep (targetCount : Nat) (st : LoopState) (e : VedEcoEnv) : LoopState × Bool :=
  if e.clicked then vedEcoParse targetCount ⟨st.acc, 0⟩ e
  else
    let st := ⟨st.acc, st.misses + 1⟩
    if st.misses ≥ 3 then (st, true)
    else vedEcoParse targetCount st e

def VedomostiEconomics.scroll_and_click_load_more (env : Nat → VedEcoEnv)
    (maxClicks targetCount : Nat) : LoopState × Nat :=
  runLoop (vedEcoStep targetCount) env maxClicks 0 initLoopState

/-- One round's environment for the vedomosti_business loop: like the
economics one plus the reads of its retry branch (the re-scrolled
time-element count, the second count and the second snapshot). -/
structure VedBizEnv where
  clicked : Bool
  parseOk : Bool
  timeCount : Nat
  page : Node
  timeCountCheck : Nat
  timeCount2 : Nat
  page2 : Node

/-- The target-count check ending every vedomosti_business round that did
not break earlier. -/
def vedBizTail (targetCount : Nat) (st : LoopState) : LoopState × Bool :=
  if targetCount ≠ 0 ∧ st.acc.collected.length ≥ targetCount then (st, true) else (st, false)

/-- The parse-and-merge tail of a vedomosti_business round: the merge, the
stall heuristic (same as economics), then the retry branch taken when the
click admitted nothing: a collapsed time count that stays collapsed after
re-scrolling stops the loop; otherwise a second parse is merged, and if
the time count shrank and the second chunk is also below thirty percent of
the collection the loop stops. -/
def vedBizParse (targetCount : Nat) (st : LoopState) (e : VedBizEnv) : LoopState × Bool :=
  if e.parseOk then
    let chunk := VedomostiBusiness.extract_news_from_page e.page
    let acc := mergeRound st.acc chunk
    let c := acc.collected.length
    if 50 < c ∧ 10 * e.timeCount < 3 * c ∧ 10 * chunk.length < 3 * c then
      (⟨acc, st.misses⟩, true)
    else if e.clicked ∧ mergeAdded st.acc chunk = 0 then
      if 10 * e.timeCount < 3 * c ∧ 2 * e.timeCountCheck < c then
        (⟨acc, st.misses⟩, true)
      else
        let chunk2 := VedomostiBusiness.extract_news_from_page e.page2
        let acc2 := mergeRound acc chunk2
        if mergeAdded acc chunk2 > 0 then vedBizTail targetCount ⟨acc2, st.misses⟩
        else if e.timeCount2 > e.timeCount then vedBizTail targetCount ⟨acc2, st.misses⟩
        else if e.timeCount2 < e.timeCount then
          if 10 * chunk2.length < 3 * acc2.collected.length then (⟨acc2, st.misses⟩, true)
          else vedBizTail targetCount ⟨acc2, st.misses⟩
        else vedBizTail targetCount ⟨acc2, st.misses⟩
    else vedBizTail targetCount ⟨acc, st.misses⟩
  else vedBizTail targetCount st

/-- One round of vedomosti_business.scroll_and_click_load_more: identical
miss handling to the economics loop, then the business parse tail. -/
def vedBizStep (targetCount : Nat) (st : LoopState) (e : VedBizEnv) : LoopState × Bool :=
  if e.clicked then vedBizParse targetCount ⟨st.acc, 0⟩ e
  else
    let st := ⟨st.acc, st.misses + 1⟩
    if st.misses ≥ 3 then (st, true)
    else vedBizParse targetCount st e

def VedomostiBusiness.scroll_and_click_load_more (env : Nat → VedBizEnv)
    (maxClicks targetCount : Nat) : LoopState × Nat :=
  runLoop (vedBizStep targetCount) env maxClicks 0 initLoopState

/-- The state of finam's loading loop: it accumulates nothing (extraction
runs once afterwards over the final page), only bookkeeping counts. -/
structure FinamState where
  lastHeight : Nat
  lastNewsCount : Nat
  sameHeight : Nat
deriving Repr, DecidableEq

/-- One round's environment for finam's loop: the click outcome, the page
height read after the round's scrolling, whether the count reads succeeded
(the try block), and the two article-link counts. -/
structure FinamEnv where
  clicked : Bool
  newHeight : Nat
  countOk : Bool
  currentCount : Nat
  currentCount2 : Nat

/-- One round of finam.scroll_and_load_all_news: a grown link count resets
the stagnation counter and may reach the target; a clicked round whose
count did not grow rechecks once; five consecutive rounds with unchanged
page height stop the loop. -/
def finamStep (targetCount : Nat) (st : FinamState) (e : FinamEnv) : FinamState × Bool :=
  let counted :=
    if e.countOk then
      if e.currentCount > st.lastNewsCount then
        ((⟨st.lastHeight, e.currentCount, 0⟩ : FinamState),
         targetCount != 0 && targetCount ≤ e.currentCount)
      else if e.clicked then
        if e.currentCount2 > e.currentCount then
          ((⟨st.lastHeight, e.currentCount2, 0⟩ : FinamState),
           targetCount != 0 && targetCount ≤ e.currentCount2)
        else (st, false)
      else (st, false)
    else (st, false)
  if counted.2 then (counted.1, true)
  else
    let st := counted.1
    if e.newHeight = st.lastHeight then
      if st.sameHeight + 1 ≥ 5 then (⟨st.lastHeight, st.lastNewsCount, st.sameHeight + 1⟩, true)
      else (⟨st.lastHeight, st.lastNewsCount, st.sameHeight + 1⟩, false)
    else (⟨e.newHeight, st.lastNewsCount, 0⟩, false)

/-- finam.scroll_and_load_all_news (the source calls it with max_rounds 60
and target 3000); `initHeight` is the height read before the loop. -/
def Finam.scroll_and_load_all_news (env : Nat → FinamEnv)
    (maxRounds targetCount initHeight : Nat) : FinamState × Nat :=
  runLoop (finamStep targetCount) env maxRounds 0 ⟨initHeight, 0, 0⟩

/-! ## Supporting definitions for the order statements -/

/-- First-kept-occurrence deduplication of a url list, starting from a set
of already-seen urls; used to state in what order finam's articles dict
lists its keys. -/
def dedupFirstFrom (seen : List String) : List String → List String
  | [] => []
  | u :: rest =>
    if u ∈ seen then dedupFirstFrom seen rest
    else u :: dedupFirstFrom (u :: seen) rest

/-- The hrefs of all anchors of a document in document order; used to
exhibit the document positions of the anchors behind extracted items. -/
def hrefsInDocOrder (doc : Node) : List String :=
  (Node.elemsAnc [] doc).filterMap (fun x =>
    if x.1.tagOf == "a" then x.1.getAttr "href" else none)

/-- The number of time elements in a snapshot (what
driver.find_elements of the "time" selector counts). -/
def countTimeElems (doc : Node) : Nat :=
  (Node.findAll (fun n => n.tagOf == "time") doc).length

/-! ## Lemmas about the shared merge discipline -/

theorem mergeRound_stable : ∀ (l : List Item) (acc : Accum),
    (∀ it ∈ l, itemKey it ∈ acc.seen) → mergeRound acc l = acc := by
  intro l
  induction l with
  | nil => intro acc _; rfl
  | cons it rest ih =>
    intro acc h
    rw [mergeRound, if_pos (h it (by simp))]
    exact ih acc (fun x hx => h x (by simp [hx]))

theorem mergeRound_seen_mono : ∀ (l : List Item) (acc : Accum) (k : String × String),
    k ∈ acc.seen → k ∈ (mergeRound acc l).seen := by
  intro l
  induction l with
  | nil => intro acc k hk; exact hk
  | cons it rest ih =>
    intro acc k hk
    rw [mergeRound]
    by_cases h : itemKey it ∈ acc.seen
    · rw [if_pos h]; exact ih acc k hk
    · rw [if_neg h]
      exact ih _ k (by simp [hk])

theorem mergeRound_covers : ∀ (l : List Item) (acc : Accum) (it : Item),
    it ∈ l → itemKey it ∈ (mergeRound acc l).seen := by
  intro l
  induction l with
  | nil => intro acc it h; cases h
  | cons x rest ih =>
    intro acc it h
    rw [mergeRound]
    rcases List.mem_cons.mp h with h1 | h2
    · subst h1
      by_cases hx : itemKey it ∈ acc.seen
      · rw [if_pos hx]; exact mergeRound_seen_mono rest acc _ hx
      · rw [if_neg hx]
        exact mergeRound_seen_mono rest _ _ (by simp)
    · by_cases hx : itemKey x ∈ acc.seen
      · rw [if_pos hx]; exact ih acc it h2
      · rw [if_neg hx]; exact ih _ it h2

theorem mergeRound_collected_eq : ∀ (l : List Item) (acc : Accum),
    (mergeRound acc l).collected = acc.collected ++ dedupByKeyFrom acc.seen l := by
  intro l
  induction l with
  | nil => intro acc; simp [mergeRound, dedupByKeyFrom]
  | cons it rest ih =>
    intro acc
    rw [mergeRound, dedupByKeyFrom]
    by_cases h : itemKey it ∈ acc.seen
    · rw [if_pos h, if_pos h]; exact ih acc
    · rw [if_neg h, if_neg h, ih]
      simp

theorem mergeRound_mem : ∀ (l : List Item) (acc : Accum) (it : Item),
    it ∈ (mergeRound acc l).collected → it ∈ acc.collected ∨ it ∈ l := by
  intro l
  induction l with
  | nil => intro acc it h; exact Or.inl h
  | cons x rest ih =>
    intro acc it h
    rw [mergeRound] at h
    by_cases hx : itemKey x ∈ acc.seen
    · rw [if_pos hx] at h
      rcases ih acc it h with h1 | h2
      · exact Or.inl h1
      · exact Or.inr (List.mem_cons_of_mem _ h2)
    · rw [if_neg hx] at h
      rcases ih _ it h with h1 | h2
      · rcases List.mem_append.mp h1 with ha | hb
        · exact Or.inl ha
        · simp at hb; subst hb; exact Or.inr (by simp)
      · exact Or.inr (List.mem_cons_of_mem _ h2)

theorem mergeRound_nodup_keys : ∀ (l : List Item) (acc : Accum),
    (acc.collected.map itemKey).Nodup →
    (∀ k ∈ acc.collected.map itemKey, k ∈ acc.seen) →
    ((mergeRound acc l).collected.map itemKey).Nodup := by
  intro l
  induction l with
  | nil => intro acc h1 _; exact h1
  | cons it rest ih =>
    intro acc h1 h2
    rw [mergeRound]
    by_cases hx : itemKey it ∈ acc.seen
    · rw [if_pos hx]; exact ih acc h1 h2
    · rw [if_neg hx]
      refine ih _ ?_ ?_
      · simp only [List.map_append, List.map_cons, List.map_nil]
        rw [List.nodup_append]
        refine ⟨h1, List.nodup_singleton _, ?_⟩
        intro k hk
        simp only [List.mem_singleton]
        intro hkk
        subst hkk
        exact hx (h2 _ hk)
      · intro k hk
        simp only [List.map_append, List.map_cons, List.map_nil, List.mem_append,
          List.mem_singleton] at hk
        rcases hk with hk | hk
        · exact List.mem_cons_of_mem _ (h2 k hk)
        · subst hk; exact List.mem_cons_self _ _

/-! ## Lemmas about finam's articles dict -/

theorem finamUpsert_keys : ∀ (st : List (String × FinamInfo)) (url text : String),
    (finamUpsert st url text).map Prod.fst =
      if url ∈ st.map Prod.fst then st.map Prod.fst else st.map Prod.fst ++ [url] := by
  intro st
  induction st with
  | nil => intro url text; simp [finamUpsert]
  | cons p rest ih =>
    intro url text
    rw [finamUpsert]
    by_cases h : p.1 = url
    · subst h
      simp [finamUpsert]
    · rw [if_neg h]
      simp only [List.map_cons, ih]
      by_cases hm : url ∈ rest.map Prod.fst
      · rw [if_pos hm, if_pos (by simp [hm])]
      · rw [if_neg hm, if_neg ?_]
        · simp
        · simp only [List.mem_cons]
          push_neg
          exact ⟨fun hc => h hc.symm, hm⟩

theorem dedupFirstFrom_congr : ∀ (l : List String) (s1 s2 : List String),
    (∀ x, x ∈ s1 ↔ x ∈ s2) → dedupFirstFrom s1 l = dedupFirstFrom s2 l := by
  intro l
  induction l with
  | nil => intro s1 s2 _; rfl
  | cons u rest ih =>
    intro s1 s2 h
    rw [dedupFirstFrom, dedupFirstFrom]
    by_cases hu : u ∈ s1
    · rw [if_pos hu, if_pos ((h u).mp hu)]
      exact ih s1 s2 h
    · rw [if_neg hu, if_neg (fun hc => hu ((h u).mpr hc))]
      refine congrArg _ (ih _ _ ?_)
      intro x
      simp only [List.mem_cons]
      exact or_congr Iff.rfl (h x)

theorem dedupFirstFrom_nodup : ∀ (l seen : List String),
    (dedupFirstFrom seen l).Nodup ∧ ∀ x ∈ dedupFirstFrom seen l, x ∉ seen := by
  intro l
  induction l with
  | nil => intro seen; exact ⟨List.nodup_nil, by simp [dedupFirstFrom]⟩
  | cons u rest ih =>
    intro seen
    rw [dedupFirstFrom]
    by_cases hu : u ∈ seen
    · rw [if_pos hu]; exact ih seen
    · rw [if_neg hu]
      obtain ⟨hnd, hdisj⟩ := ih (u :: seen)
      refine ⟨List.nodup_cons.mpr ⟨fun hc => hdisj u hc (by simp), hnd⟩, ?_⟩
      intro x hx
      rcases List.mem_cons.mp hx with rfl | hx2
      · exact hu
      · exact fun hc => hdisj x hx2 (by simp [hc])

theorem finamFold_keys : ∀ (cands : List (String × String)) (st : List (String × FinamInfo)),
    (cands.foldl (fun st c => finamUpsert st c.1 c.2) st).map Prod.fst =
      st.map Prod.fst ++ dedupFirstFrom (st.map Prod.fst) (cands.map Prod.fst) := by
  intro cands
  induction cands with
  | nil => intro st; simp [dedupFirstFrom]
  | cons c rest ih =>
    intro st
    simp only [List.foldl_cons, List.map_cons]
    rw [ih, dedupFirstFrom, finamUpsert_keys]
    by_cases h : c.1 ∈ st.map Prod.fst
    · rw [if_pos h, if_pos h]
    · rw [if_neg h, if_neg h]
      rw [dedupFirstFrom_congr (rest.map Prod.fst) ((st.map Prod.fst) ++ [c.1]) (c.1 :: st.map Prod.fst) ?_]
      · simp
      · intro x; simp [or_comm]

/-- The round counter of the bounded runner never exceeds its fuel. -/
theorem runLoop_rounds_le {S E : Type} (step : S → E → S × Bool) (env : Nat → E) :
    ∀ (k i : Nat) (st : S), (runLoop step env k i st).2 ≤ k := by
  intro k
  induction k with
  | zero => intro i st; exact Nat.le_refl 0
  | succ n ih =>
    intro i st
    rw [runLoop]
    rcases h : step st (env i) with ⟨st', stop⟩
    cases stop
    · rcases h2 : runLoop step env n (i + 1) st' with ⟨fin, r⟩
      simpa [h2] using Nat.succ_le_succ (by simpa [h2] using ih (i + 1) st')
    · exact Nat.succ_le_succ (Nat.zero_le n)

/-! ## Soundness of the per-item candidate functions -/

/-- Whatever strategy 2 of a vedomosti extractor emits has passed the
title guard, so its title is non-empty. -/
theorem vedCand2_sound (x : Node × List Node) (it : Item)
    (h : vedCand2 x = some it) : it.title ≠ "" := by
  unfold vedCand2 at h
  simp only [] at h
  split at h
  · simp at h
  · split at h <;>
    · split at h
      · simp at h
      · split at h
        · simp at h
        · obtain rfl := (Option.some.injEq _ _).mp h
          simp_all

/-- Whatever strategy 1 of a vedomosti extractor emits has passed the
title guard, so its title is non-empty. -/
theorem vedCand1_sound (p : String → Bool) (x : Node × List Node) (it : Item)
    (h : vedCand1 p x = some it) : it.title ≠ "" := by
  unfold vedCand1 at h
  simp only [] at h
  split at h
  · simp at h
  · split at h
    · simp at h
    · split at h
      · simp at h
      · split at h
        · simp at h
        · split at h
          · simp at h
          · split at h
            · simp at h
            · split at h <;>
              · split at h
                · simp at h
                · obtain rfl := (Option.some.injEq _ _).mp h
                  simp_all

/-- Whatever the akm block processor emits has a non-empty title and a
non-empty date (the final conjunction guard of the source). -/
theorem akmProcessItem_sound (b : Node) (it : Item) (h : akmProcessItem b = some it) :
    it.title ≠ "" ∧ it.date ≠ "" := by
  unfold akmProcessItem at h
  simp only [] at h
  split at h
  · simp at h
  · split at h
    · simp at h
    · split at h
      · simp at h
      · split at h
        · obtain rfl := (Option.some.injEq _ _).mp h
          simp_all
        · simp at h

/-- Membership in a vedomosti extraction is membership in one of its two
candidate streams. -/
theorem ved_extract_mem (cands : List Item) (it : Item)
    (h : it ∈ (mergeRound ⟨[], []⟩ cands).collected) : it ∈ cands := by
  rcases mergeRound_mem cands ⟨[], []⟩ it h with h1 | h2
  · cases h1
  · exact h2

/-! ## Concrete markup fixtures and environment traces -/

def el (tag : String) (attrs : List (String × String)) (children : List Node) : Node :=
  .elem tag attrs children

def txt (s : String) : Node := .text s

def docRoot (children : List Node) : Node := .elem "[document]" [] children

/-- A well-formed akm news block: title link inside the h3 title tag, the
full date-time in the last span of the meta block. -/
def akmBlock : Node :=
  el "div" [("class", "b-section-item")] [
    el "h3" [("class", "b-section-item__title")] [
      el "a" [("href", "/news/1")] [txt "Заголовок новости"]],
    el "div" [("class", "b-section-item__meta")] [
      el "span" [] [txt "Акции"],
      el "span" [] [txt "05 февраля 2026 12:18"]]]

def akmDoc : Node := docRoot [akmBlock]

/-- The same block twice, as on the akm page where a story appears both in
the main list and in the popular-stories rail. -/
def akmDupDoc : Node := docRoot [akmBlock, akmBlock]

/-- A finam article anchor whose href ends in a double slash: the anchor
has no text, no title attribute and no text siblings, so every title
fallback, including the final path-segment one, produces the empty
string. -/
def finamEmptyDoc : Node :=
  docRoot [el "a" [("href", "https://bonds.finam.ru/news/item//")] []]

/-- A finam article anchor without the date token in its URL. -/
def finamRetainDoc : Node :=
  docRoot [el "a" [("href", "/publications/item/some-economic-story/")]
    [txt "Economic outlook improves strongly"]]

/-- One interfax timeline entry: a datetime-carrying time element next to
a titled article link; distinct indexes give distinct titles. -/
def interfaxItemBlock (i : Nat) : Node :=
  el "div" [] [
    el "time" [("datetime", "2024-01-01T10:00:00")] [],
    el "a" [("href", "/business/" ++ toString (100 + i)),
            ("title", "news item " ++ toString i)] []]

/-- An interfax page whose timeline renders `k` entries. -/
def interfaxPage (k : Nat) : Node :=
  docRoot [el "div" [("class", "timeline")] ((List.range k).map interfaxItemBlock)]

/-- An interfax page rendering a single fresh entry with index `i`. -/
def interfaxSinglePage (i : Nat) : Node :=
  docRoot [el "div" [("class", "timeline")] [interfaxItemBlock i]]

/-- An interfax trace for the stall heuristic: round 0 clicks and renders
51 fresh entries; every later round clicks but renders only one
already-seen entry — from round 1 on, the rendered time-element count (1)
and the parsed chunk (1) are both far below thirty percent of the 51
collected items. -/
def stallEnv (i : Nat) : InterfaxEnv :=
  if i = 0 then ⟨true, true, interfaxPage 51⟩ else ⟨true, true, interfaxPage 1⟩

/-- An interfax trace for the not-found counter: the trigger is never
located; rounds 0 to 2 still parse one fresh entry each, rounds 3 and
later parse an empty page. -/
def c4env (i : Nat) : InterfaxEnv :=
  if i < 3 then ⟨false, true, interfaxSinglePage i⟩ else ⟨false, true, docRoot []⟩

/-- A vedomosti page on which strategy 1 misses the first story (the
first link of its card is a bare "#" anchor, so the card-level link lookup
lands on a non-news href and the time element is skipped) while strategy 2
recovers it from its article link; a later story is found by strategy 1.
The recovered item therefore trails the later story in the output. -/
def c9doc : Node :=
  docRoot [
    el "div" [] [
      el "div" [] [
        el "time" [("datetime", "2024-01-02")] [],
        el "a" [("href", "#")] [txt "nav"],
        el "a" [("href", "/business/story-a")] [txt "Alpha headline"]]],
    el "div" [] [
      el "div" [] [
        el "time" [("datetime", "2024-01-03")] [],
        el "a" [("href", "/business/story-b")] [txt "Beta headline"]]]]

/-- A single vedomosti business news card. -/
def vedBizOnePage : Node :=
  docRoot [el "div" [("class", "card-news-item")] [
    el "time" [("datetime", "2024-01-01")] [],
    el "a" [("href", "/business/zz-story")] [txt "Some headline"]]]

/-- A single vedomosti economics news card. -/
def vedEcoOnePage : Node :=
  docRoot [el "div" [("class", "card-news-item")] [
    el "time" [("datetime", "2024-01-01")] [],
    el "a" [("href", "/economics/zz-story")] [txt "Some economics headline"]]]

/-- An accumulator that already holds sixty distinct items. -/
def accSixty : Accum :=
  ⟨(List.range 60).map (fun i => ⟨"2024-01-01", "t" ++ toString i⟩),
   (List.range 60).map (fun i => ("2024-01-01", "t" ++ toString i))⟩

/-- A clicked vedomosti business round over `accSixty`: the page parses to
one fresh item (61 collected), while the rendered time-element count is 0,
far below thirty percent. -/
def eStallBiz : VedBizEnv := ⟨true, true, 0, vedBizOnePage, 0, 0, docRoot []⟩

def eStallEco : VedEcoEnv := ⟨true, true, 0, vedEcoOnePage⟩

/-- A round in which the trigger was not found and nothing is parsed. -/
def eMissBiz : VedBizEnv := ⟨false, false, 0, docRoot [], 0, 0, docRoot []⟩

def eMissEco : VedEcoEnv := ⟨false, false, 0, docRoot []⟩

def eClickBiz : VedBizEnv := ⟨true, false, 0, docRoot [], 0, 0, docRoot []⟩

def eClickEco : VedEcoEnv := ⟨true, false, 0, docRoot []⟩

def eMissIfx : InterfaxEnv := ⟨false, false, docRoot []⟩

/-- An unclicked interfax round that still parses one fresh entry. -/
def eAddIfx : InterfaxEnv := ⟨false, true, interfaxSinglePage 0⟩

/-- A finam round with no trigger found, failing count reads and a page
height that differs from the remembered one. -/
def eFinamQuiet : FinamEnv := ⟨false, 900, false, 0, 0⟩

/-! ## The claims -/

set_option maxRecDepth 100000

/-- C3: every harvest loop performs at most the configured round cap of
rounds and terminates (the run functions are total by construction),
whatever the environment supplies — in particular also when the trigger is
found on every round and every round parses only already-seen items. -/
theorem c3_round_cap (maxClicks targetCount initHeight : Nat) :
    (∀ env, (Interfax.scroll_and_click_load_more env maxClicks targetCount).2 ≤ maxClicks) ∧
    (∀ env, (Finam.scroll_and_load_all_news env maxClicks targetCount initHeight).2 ≤ maxClicks) ∧
    (∀ env, (VedomostiBusiness.scroll_and_click_load_more env maxClicks targetCount).2 ≤ maxClicks) ∧
    (∀ env, (VedomostiEconomics.scroll_and_click_load_more env maxClicks targetCount).2 ≤ maxClicks) := by
  refine ⟨fun env => ?_, fun env => ?_, fun env => ?_, fun env => ?_⟩ <;>
    apply runLoop_rounds_le

/-- C5: the accumulator merge is idempotent — for every accumulator state
(collected list plus seen-key set) and every extraction chunk, merging the
same chunk a second time immediately after the first admits no items and
leaves the accumulator unchanged. -/
theorem c5_merge_idempotent (acc : Accum) (chunk : List Item) :
    mergeRound (mergeRound acc chunk) chunk = mergeRound acc chunk ∧
    mergeAdded (mergeRound acc chunk) chunk = 0 := by
  have hstable := mergeRound_stable chunk (mergeRound acc chunk)
      (fun it h => mergeRound_covers chunk acc it h)
  exact ⟨hstable, by rw [mergeAdded, hstable, Nat.sub_self]⟩

/-- C7: a finam URL with the embedded token -20240702-1943/ yields the
date 2024-07-02 19:43; a URL without any 8-digit plus 4-digit token yields
the empty string, and the extractor still emits the item with its title
and an empty date instead of dropping it. -/
theorem c7_url_date_token :
    parse_datetime_from_url
        "https://www.finam.ru/publications/item/market-review-20240702-1943/" =
      "2024-07-02 19:43" ∧
    parse_datetime_from_url
        "https://www.finam.ru/publications/item/some-economic-story/" = "" ∧
    Finam.extract_news_from_page finamRetainDoc =
      [⟨"", "Economic outlook improves strongly"⟩] := by
  refine ⟨by decide, by decide, by decide⟩

/-- C8: in finam's per-URL title resolution, a later visible text replaces
the currently kept title only if it is strictly longer and either at least
twenty percent longer or the kept title is shorter than ten characters;
otherwise the kept title is unchanged.  (The source's strict test
len(text) > len(kept) * 1.2 implies the at-least-twenty-percent bound
6 * len(kept) ≤ 5 * len(text).) -/
theorem c8_title_replacement (kept text : String) :
    (finamTitleUpdate kept text ≠ kept →
      pyLen text > pyLen kept ∧ (6 * pyLen kept ≤ 5 * pyLen text ∨ pyLen kept < 10)) ∧
    (¬(pyLen text > pyLen kept ∧ (6 * pyLen kept ≤ 5 * pyLen text ∨ pyLen kept < 10)) →
      finamTitleUpdate kept text = kept) := by
  unfold finamTitleUpdate
  constructor
  · intro h
    by_cases h1 : pyLen text > pyLen kept
    · refine ⟨h1, ?_⟩
      rw [if_pos h1] at h
      by_cases h2 : 5 * pyLen text > 6 * pyLen kept ∨ pyLen kept < 10
      · rcases h2 with h2 | h2
        · exact Or.inl (Nat.le_of_lt h2)
        · exact Or.inr h2
      · rw [if_neg h2] at h; exact absurd rfl h
    · rw [if_neg h1] at h; exact absurd rfl h
  · intro h
    push_neg at h
    by_cases h1 : pyLen text > pyLen kept
    · rw [if_pos h1]
      obtain ⟨hle, h10⟩ := h h1
      rw [if_neg ?_]
      push_neg
      exact ⟨by omega, by omega⟩
    · rw [if_neg h1]

/-- Witness for C8 at a concrete pair of titles. -/
theorem c8_witness :
    pyLen "a considerably longer headline" > pyLen "ok" ∧
    (6 * pyLen "ok" ≤ 5 * pyLen "a considerably longer headline" ∨ pyLen "ok" < 10) :=
  (c8_title_replacement "ok" "a considerably longer headline").1 (by decide)

/-- C10: the akm extractor emits an item only when both the title and the
date text are non-empty — a block whose meta region yields no date string
is dropped, so every returned item carries a non-empty date. -/
theorem c10_akm_date_and_title (doc : Node) (it : Item)
    (h : it ∈ get_akm_news doc) : it.title ≠ "" ∧ it.date ≠ "" := by
  unfold get_akm_news at h
  obtain ⟨b, _, hb⟩ := List.mem_filterMap.mp h
  exact akmProcessItem_sound b it hb

/-- Witness for C10 on a concrete akm page. -/
theorem c10_witness :
    (⟨"05 февраля 2026 12:18", "Заголовок новости"⟩ : Item).title ≠ "" ∧
    (⟨"05 февраля 2026 12:18", "Заголовок новости"⟩ : Item).date ≠ "" :=
  c10_akm_date_and_title akmDoc _ (by decide)

/-- C1 counterexample: get_akm_news performs no per-call deduplication —
on a page where the same block appears twice (main list plus popular rail)
it returns two items with the same (date, title) key; and finam's
extractor can emit an item whose title is empty, via the path-segment
fallback on an href ending in a double slash.  The claim that every
extract function returns no empty title and no duplicate keys is
therefore false on the code. -/
theorem c1_counterexample :
    get_akm_news akmDupDoc =
      [⟨"05 февраля 2026 12:18", "Заголовок новости"⟩,
       ⟨"05 февраля 2026 12:18", "Заголовок новости"⟩] ∧
    ¬ ((get_akm_news akmDupDoc).map itemKey).Nodup ∧
    Finam.extract_news_from_page finamEmptyDoc = [⟨"", ""⟩] := by
  refine ⟨by decide, by decide, by decide⟩

/-- C1 (amended): the vedomosti extractors return no item with an empty
title and no two of their items share a (date, title) key; the akm
extractor returns no item with an empty title but performs no per-call
deduplication (that is deferred to the page loop's merge); the finam
extractor deduplicates by canonical URL only and can emit an empty title
through its URL-segment fallback. -/
theorem c1_amended_extract_guarantees :
    (∀ (doc : Node) (it : Item),
      it ∈ VedomostiBusiness.extract_news_from_page doc → it.title ≠ "") ∧
    (∀ doc : Node, ((VedomostiBusiness.extract_news_from_page doc).map itemKey).Nodup) ∧
    (∀ (doc : Node) (it : Item),
      it ∈ VedomostiEconomics.extract_news_from_page doc → it.title ≠ "") ∧
    (∀ doc : Node, ((VedomostiEconomics.extract_news_from_page doc).map itemKey).Nodup) ∧
    (∀ (doc : Node) (it : Item), it ∈ get_akm_news doc → it.title ≠ "") ∧
    (∀ doc : Node, ((finamArticles doc).map Prod.fst).Nodup) := by
  refine ⟨?_, ?_, ?_, ?_, ?_, ?_⟩
  · intro doc it h
    rcases List.mem_append.mp (ved_extract_mem _ it h) with h1 | h2
    · obtain ⟨x, _, hx⟩ := List.mem_filterMap.mp h1
      exact vedCand1_sound _ x it hx
    · obtain ⟨x, _, hx⟩ := List.mem_filterMap.mp h2
      exact vedCand2_sound x it hx
  · intro doc
    exact mergeRound_nodup_keys _ ⟨[], []⟩ (by simp) (by simp)
  · intro doc it h
    rcases List.mem_append.mp (ved_extract_mem _ it h) with h1 | h2
    · obtain ⟨x, _, hx⟩ := List.mem_filterMap.mp h1
      exact vedCand1_sound _ x it hx
    · obtain ⟨x, _, hx⟩ := List.mem_filterMap.mp h2
      exact vedCand2_sound x it hx
  · intro doc
    exact mergeRound_nodup_keys _ ⟨[], []⟩ (by simp) (by simp)
  · intro doc it h
    obtain ⟨b, _, hb⟩ := List.mem_filterMap.mp (by simpa [get_akm_news] using h)
    exact (akmProcessItem_sound b it hb).1
  · intro doc
    have h := finamFold_keys (finamCandList doc) []
    rw [show (finamArticles doc) = (finamCandList doc).foldl
          (fun st c => finamUpsert st c.1 c.2) [] from rfl, h]
    simpa using (dedupFirstFrom_nodup ((finamCandList doc).map Prod.fst) []).1

/-- Witness for C1's amended statement on concrete pages of each site. -/
theorem c1_witness :
    (⟨"2024-01-01", "Some headline"⟩ : Item).title ≠ "" ∧
    (⟨"2024-01-01", "Some economics headline"⟩ : Item).title ≠ "" ∧
    (⟨"05 февраля 2026 12:18", "Заголовок новости"⟩ : Item).title ≠ "" :=
  ⟨c1_amended_extract_guarantees.1 vedBizOnePage _ (by decide),
   c1_amended_extract_guarantees.2.2.1 vedEcoOnePage _ (by decide),
   c1_amended_extract_guarantees.2.2.2.2.1 akmDoc _ (by decide)⟩

/-- C6 counterexample: the minute-precision normalizer variant (interfax)
is not the identity on unrecognized inputs — an input longer than sixteen
characters without a recognized date shape is truncated, not returned
unchanged. -/
theorem c6_counterexample :
    interfaxDateNorm "definitely not a date" = "definitely not a" ∧
    "definitely not a" ≠ "definitely not a date" := by
  refine ⟨by decide, by decide⟩

/-- C6 (amended): the normalizers are total functions;
dot_date_to_iso rewrites 05.02.2026 to 2026-02-05 and returns any
non-matching input unchanged; the date-only variant truncates an
ISO date-time to 2026-02-05 and the minute-precision variant to
2026-02-05 12:18; "not a date" passes through both unchanged; the
minute-precision variant, however, returns an unrecognized input
unchanged only when it contains no "T" and is at most sixteen characters
long (longer inputs are truncated to sixteen characters). -/
theorem c6_amended_normalizer :
    dot_date_to_iso "05.02.2026" = "2026-02-05" ∧
    vedDateFromText "2026-02-05T12:18:00" = some "2026-02-05" ∧
    interfaxDateNorm "2026-02-05T12:18:00" = "2026-02-05 12:18" ∧
    dot_date_to_iso "not a date" = "not a date" ∧
    interfaxDateNorm "not a date" = "not a date" ∧
    (∀ s : String, isDotDate (pyTrim s) = false → dot_date_to_iso s = s) ∧
    (∀ s : String, (∀ c ∈ s.data, c ≠ 'T') → pyLen s ≤ 16 → interfaxDateNorm s = s) := by
  refine ⟨by decide, by decide, by decide, by decide, by decide, ?_, ?_⟩
  · intro s h
    unfold dot_date_to_iso
    simp [h]
  · intro s hT hlen
    unfold interfaxDateNorm pyTake
    have hmap : s.data.map (fun c => if c = 'T' then ' ' else c) = s.data := by
      rw [List.map_congr_left (fun c hc => if_neg (hT c hc))]
      simp
    rw [hmap, List.take_of_length_le hlen]

/-- Witness for C6's amended statement at concrete inputs. -/
theorem c6_witness :
    dot_date_to_iso "nope" = "nope" ∧ interfaxDateNorm "short" = "short" :=
  ⟨c6_amended_normalizer.2.2.2.2.2.1 "nope" (by decide),
   c6_amended_normalizer.2.2.2.2.2.2 "short" (by decide) (by decide)⟩

/-- Every exit of a vedomosti_business round's target check keeps the
state unchanged. -/
theorem vedBizTail_state (targetCount : Nat) (st : LoopState) :
    (vedBizTail targetCount st).1 = st := by
  unfold vedBizTail
  split <;> rfl

/-- The parse tail of a vedomosti_business round never changes the
no-click counter. -/
theorem vedBizParse_misses (targetCount : Nat) (st : LoopState) (e : VedBizEnv) :
    ((vedBizParse targetCount st e).1).misses = st.misses := by
  unfold vedBizParse vedBizTail
  simp only []
  repeat' split
  all_goals rfl

/-- The parse tail of a vedomosti_economics round never changes the
no-click counter. -/
theorem vedEcoParse_misses (targetCount : Nat) (st : LoopState) (e : VedEcoEnv) :
    ((vedEcoParse targetCount st e).1).misses = st.misses := by
  unfold vedEcoParse
  simp only []
  repeat' split
  all_goals rfl

/-- C2 counterexample: the interfax loop has no stall heuristic.  In the
`stallEnv` trace, round 0 collects 51 items (more than the 50 floor); in
round 1 the rendered date-marker count is 1 and the parsed chunk has 1
item, both far below thirty percent of 51, and the trigger is still being
found — yet the loop runs through all ten budgeted rounds instead of
stopping at the stalled round. -/
theorem c2_counterexample :
    (Interfax.scroll_and_click_load_more stallEnv 10 10000).2 = 10 ∧
    (Interfax.scroll_and_click_load_more stallEnv 10 10000).1.acc.collected.length = 51 ∧
    (Interfax.extract_news_from_page (stallEnv 1).page).length = 1 ∧
    countTimeElems ((stallEnv 1).page) = 1 ∧
    (stallEnv 1).clicked = true ∧
    10 * countTimeElems ((stallEnv 1).page) < 3 * 51 ∧
    10 * (Interfax.extract_news_from_page (stallEnv 1).page).length < 3 * 51 := by
  refine ⟨by decide, by decide, by decide, by decide, by decide, by decide, by decide⟩

/-- C2 (amended): the stall heuristic exists in the two vedomosti loops
only.  There, in any round that clicked the trigger and whose driver reads
succeeded, once the post-merge accumulator holds more than 50 items, if
both the rendered time-element count and the size of the chunk parsed this
round fall below thirty percent of the accumulator's size, the round stops
the loop.  The interfax and finam loops have no such stall stop
(c2_counterexample). -/
theorem c2_amended_stall (targetCount : Nat) (st : LoopState) :
    (∀ e : VedBizEnv, e.clicked = true → e.parseOk = true →
      50 < (mergeRound st.acc (VedomostiBusiness.extract_news_from_page e.page)).collected.length →
      10 * e.timeCount <
        3 * (mergeRound st.acc (VedomostiBusiness.extract_news_from_page e.page)).collected.length →
      10 * (VedomostiBusiness.extract_news_from_page e.page).length <
        3 * (mergeRound st.acc (VedomostiBusiness.extract_news_from_page e.page)).collected.length →
      (vedBizStep targetCount st e).2 = true) ∧
    (∀ e : VedEcoEnv, e.clicked = true → e.parseOk = true →
      50 < (mergeRound st.acc (VedomostiEconomics.extract_news_from_page e.page)).collected.length →
      10 * e.timeCount <
        3 * (mergeRound st.acc (VedomostiEconomics.extract_news_from_page e.page)).collected.length →
      10 * (VedomostiEconomics.extract_news_from_page e.page).length <
        3 * (mergeRound st.acc (VedomostiEconomics.extract_news_from_page e.page)).collected.length →
      (vedEcoStep targetCount st e).2 = true) := by
  constructor
  · intro e hc hp h50 ht hch
    unfold vedBizStep
    rw [hc]
    simp only [if_true]
    unfold vedBizParse
    rw [hp]
    simp only [if_true]
    rw [if_pos ⟨h50, ht, hch⟩]
  · intro e hc hp h50 ht hch
    unfold vedEcoStep
    rw [hc]
    simp only [if_true]
    unfold vedEcoParse
    rw [hp]
    simp only [if_true]
    rw [if_pos ⟨h50, ht, hch⟩]

/-- Witness for C2's amended statement: a clicked round over an
accumulator of sixty items whose page parses to one fresh item while no
time elements are rendered stops both vedomosti loops. -/
theorem c2_witness :
    (vedBizStep 10000 ⟨accSixty, 0⟩ eStallBiz).2 = true ∧
    (vedEcoStep 10000 ⟨accSixty, 0⟩ eStallEco).2 = true :=
  ⟨(c2_amended_stall 10000 ⟨accSixty, 0⟩).1 eStallBiz (by decide) (by decide)
      (by decide) (by decide) (by decide),
   (c2_amended_stall 10000 ⟨accSixty, 0⟩).2 eStallEco (by decide) (by decide)
      (by decide) (by decide) (by decide)⟩

/-- C4 counterexample: in the `c4env` trace the trigger cannot be located
in rounds 0, 1 and 2 — a run of three consecutive not-found rounds — yet
the interfax loop does not stop there: each of those rounds still admits a
fresh item, which resets its counter, and the loop only stops after round
5, having executed six rounds. -/
theorem c4_counterexample :
    (c4env 0).clicked = false ∧ (c4env 1).clicked = false ∧ (c4env 2).clicked = false ∧
    (Interfax.scroll_and_click_load_more c4env 500 10000).2 = 6 := by
  refine ⟨by decide, by decide, by decide, by decide⟩

/-- C4 (amended): the vedomosti loops stop exactly when the trigger
cannot be located in three consecutive rounds — the counter resets on
every clicked round and the third consecutive miss stops the loop before
parsing.  The interfax loop stops at the third counted miss as well, but
its counter resets on any round that admits new items rather than on
clicks, so three consecutive not-found rounds do not stop it while items
keep arriving (c4_counterexample).  The finam loop has no
trigger-not-found termination at all: a round with failing count reads
and a changed page height never stops it, trigger or no trigger. -/
theorem c4_amended_trigger_misses (targetCount : Nat) (st : LoopState) :
    (∀ e : VedBizEnv, e.clicked = false → st.misses = 2 →
      (vedBizStep targetCount st e).2 = true) ∧
    (∀ e : VedBizEnv, e.clicked = true →
      ((vedBizStep targetCount st e).1).misses = 0) ∧
    (∀ e : VedEcoEnv, e.clicked = false → st.misses = 2 →
      (vedEcoStep targetCount st e).2 = true) ∧
    (∀ e : VedEcoEnv, e.clicked = true →
      ((vedEcoStep targetCount st e).1).misses = 0) ∧
    (∀ e : InterfaxEnv, e.clicked = false → st.misses = 2 →
      (interfaxStep targetCount st e).2 = true) ∧
    (∀ e : InterfaxEnv, e.clicked = false → e.parseOk = true → st.misses ≤ 1 →
      0 < mergeAdded st.acc (Interfax.extract_news_from_page e.page) →
      ((interfaxStep targetCount st e).1).misses = 0) ∧
    (∀ (e : FinamEnv) (fs : FinamState), e.countOk = false → e.newHeight ≠ fs.lastHeight →
      (finamStep targetCount fs e).2 = false) := by
  refine ⟨?_, ?_, ?_, ?_, ?_, ?_, ?_⟩
  · intro e hc hm
    unfold vedBizStep
    rw [hc]
    simp only [Bool.false_eq_true, if_false, hm]
    rw [if_pos (by omega)]
  · intro e hc
    unfold vedBizStep
    rw [hc]
    simp only [if_true]
    exact vedBizParse_misses targetCount ⟨st.acc, 0⟩ e
  · intro e hc hm
    unfold vedEcoStep
    rw [hc]
    simp only [Bool.false_eq_true, if_false, hm]
    rw [if_pos (by omega)]
  · intro e hc
    unfold vedEcoStep
    rw [hc]
    simp only [if_true]
    exact vedEcoParse_misses targetCount ⟨st.acc, 0⟩ e
  · intro e hc hm
    unfold interfaxStep
    rw [hc]
    simp only [Bool.false_eq_true, if_false, hm]
    rw [if_pos (by omega)]
  · intro e hc hp hm hadd
    unfold interfaxStep
    rw [hc]
    simp only [Bool.false_eq_true, if_false]
    rw [if_neg (by omega)]
    unfold interfaxParse
    rw [hp]
    simp only [if_true]
    rw [if_pos hadd]
    split <;> rfl
  · intro e fs hc hh
    unfold finamStep
    rw [hc]
    simp only [Bool.false_eq_true, if_false]
    rw [if_neg hh]

/-- Witness for C4's amended statement at concrete rounds and states. -/
theorem c4_witness :
    (vedBizStep 10000 ⟨⟨[], []⟩, 2⟩ eMissBiz).2 = true ∧
    ((vedBizStep 10000 initLoopState eClickBiz).1).misses = 0 ∧
    (vedEcoStep 10000 ⟨⟨[], []⟩, 2⟩ eMissEco).2 = true ∧
    ((vedEcoStep 10000 initLoopState eClickEco).1).misses = 0 ∧
    (interfaxStep 10000 ⟨⟨[], []⟩, 2⟩ eMissIfx).2 = true ∧
    ((interfaxStep 10000 initLoopState eAddIfx).1).misses = 0 ∧
    (finamStep 3000 ⟨100, 0, 0⟩ eFinamQuiet).2 = false :=
  ⟨(c4_amended_trigger_misses 10000 ⟨⟨[], []⟩, 2⟩).1 eMissBiz (by decide) rfl,
   (c4_amended_trigger_misses 10000 initLoopState).2.1 eClickBiz (by decide),
   (c4_amended_trigger_misses 10000 ⟨⟨[], []⟩, 2⟩).2.2.1 eMissEco (by decide) rfl,
   (c4_amended_trigger_misses 10000 initLoopState).2.2.2.1 eClickEco (by decide),
   (c4_amended_trigger_misses 10000 ⟨⟨[], []⟩, 2⟩).2.2.2.2.1 eMissIfx (by decide) rfl,
   (c4_amended_trigger_misses 10000 initLoopState).2.2.2.2.2.1 eAddIfx (by decide)
      (by decide) (by decide) (by decide),
   (c4_amended_trigger_misses 10000 initLoopState).2.2.2.2.2.2 eFinamQuiet ⟨100, 0, 0⟩
      (by decide) (by decide)⟩

/-- C9 counterexample: on `c9doc` the vedomosti business extractor does
not return its items in document order — the anchors appear in the order
"#", story-a, story-b in the document, but the item recovered from the
story-a anchor by strategy 2 is emitted after the strategy-1 item of the
later story-b block. -/
theorem c9_counterexample :
    VedomostiBusiness.extract_news_from_page c9doc =
      [⟨"2024-01-03", "Beta headline"⟩, ⟨"2024-01-02", "Alpha headline"⟩] ∧
    hrefsInDocOrder c9doc = ["#", "/business/story-a", "/business/story-b"] := by
  refine ⟨by decide, by decide⟩

/-- C9 (amended): finam's extractor returns items in the document order
of each URL's first qualifying anchor (the articles dict lists its keys in
first-occurrence order of the candidate anchors, which are enumerated in
document order); the vedomosti extractors return all strategy-1 items in
time-element document order followed by all strategy-2 recovered items in
anchor document order, deduplicated by first-kept key, which need not
match overall document order (c9_counterexample). -/
theorem c9_amended_order :
    (∀ doc : Node, (finamArticles doc).map Prod.fst =
      dedupFirstFrom [] ((finamCandList doc).map Prod.fst)) ∧
    (∀ doc : Node, VedomostiBusiness.extract_news_from_page doc =
      dedupByKeyFrom [] (vedCandList1 vedBizIsNewsLink doc ++ vedCandList2 vedBizS2Href doc)) ∧
    (∀ doc : Node, VedomostiEconomics.extract_news_from_page doc =
      dedupByKeyFrom [] (vedCandList1 vedEcoIsNewsLink doc ++ vedCandList2 vedEcoS2Href doc)) := by
  refine ⟨?_, ?_, ?_⟩
  · intro doc
    have h := finamFold_keys (finamCandList doc) []
    simpa [finamArticles] using h
  · intro doc
    have h := mergeRound_collected_eq
      (vedCandList1 vedBizIsNewsLink doc ++ vedCandList2 vedBizS2Href doc) ⟨[], []⟩
    simpa [VedomostiBusiness.extract_news_from_page] using h
  · intro doc
    have h := mergeRound_collected_eq
      (vedCandList1 vedEcoIsNewsLink doc ++ vedCandList2 vedEcoS2Href doc) ⟨[], []⟩
    simpa [VedomostiEconomics.extract_news_from_page] using h

end NewsHarvest
